import Mathlib

/-!
Verification of the `Config` entity of `src/lib/config/config.ts`: a JSON-backed
configuration file with path resolution (global home directory vs project root,
hidden state folder) and CRUD operations (access, read, readJSON, write, exists,
stat, unlink) plus plain accessors.

The embedding is shallow: the TypeScript class becomes a Lean structure with
explicit state passing; the filesystem and the two collaborators
(`ProjectDir.getPath`, `osHomedir`) become an explicit `FS` state and an `Env`
record.  JSON documents are an inductive type `JVal`; the JavaScript builtins
`JSON.stringify(v, null, 4)` and `JSON.parse` (used through the collaborators
`SfdxUtil.writeFile` and `SfdxUtil.readJSON`, which are repository code outside
the given sources) are modelled from the spec as an executable 4-space-indented
serializer and an executable recursive-descent JSON text parser.  JSON numbers
are modelled as integers (floating point is out of scope of the embedding).
-/

/-! ## JSON documents -/

mutual

/-- A JSON document.  Numbers are modelled as integers. -/
inductive JVal where
  | jnull : JVal
  | jbool (b : Bool) : JVal
  | jnum (n : Int) : JVal
  | jstr (s : String) : JVal
  | jarr (items : JArr) : JVal
  | jobj (fields : JObj) : JVal
  deriving DecidableEq

/-- A JSON array, as a bespoke list so that mutual recursion stays structural. -/
inductive JArr where
  | nil : JArr
  | cons (hd : JVal) (tl : JArr) : JArr
  deriving DecidableEq

/-- JSON object fields in insertion order. -/
inductive JObj where
  | nil : JObj
  | cons (key : String) (val : JVal) (tl : JObj) : JObj
  deriving DecidableEq

end

mutual

/-- Fuel measure of a document: enough parser fuel to reparse it. -/
def sizeVal : JVal → Nat
  | .jnull => 1
  | .jbool _ => 1
  | .jnum _ => 1
  | .jstr _ => 1
  | .jarr xs => sizeArr xs + 1
  | .jobj xs => sizeObj xs + 1
  termination_by structural v => v

def sizeArr : JArr → Nat
  | .nil => 1
  | .cons v tl => sizeVal v + sizeArr tl
  termination_by structural xs => xs

def sizeObj : JObj → Nat
  | .nil => 1
  | .cons _ v tl => sizeVal v + sizeObj tl
  termination_by structural xs => xs

end

/-! ## Serializer: `JSON.stringify(v, null, 4)` modelled from the spec
(UTF-8 JSON written with 4-space indentation). -/

/-- Indentation: `n` spaces. -/
def pad (n : Nat) : List Char := List.replicate n ' '

/-- The decimal digit character for `n % 10`. -/
def digitChar (n : Nat) : Char :=
  match n with
  | 0 => '0' | 1 => '1' | 2 => '2' | 3 => '3' | 4 => '4'
  | 5 => '5' | 6 => '6' | 7 => '7' | 8 => '8' | _ => '9'

/-- Lowercase hexadecimal digit character for `n % 16`. -/
def hexDigitChar (n : Nat) : Char :=
  match n with
  | 0 => '0' | 1 => '1' | 2 => '2' | 3 => '3' | 4 => '4'
  | 5 => '5' | 6 => '6' | 7 => '7' | 8 => '8' | 9 => '9'
  | 10 => 'a' | 11 => 'b' | 12 => 'c' | 13 => 'd' | 14 => 'e' | _ => 'f'

/-- Decimal digits of a natural number, fuel-bounded so that the kernel can
evaluate it; `fuel ≥ n` suffices. -/
def natCharsAux : Nat → Nat → List Char
  | 0, n => [digitChar n]
  | fuel + 1, n =>
    if n < 10 then [digitChar n] else natCharsAux fuel (n / 10) ++ [digitChar (n % 10)]

/-- Decimal digits of a natural number, most significant first. -/
def natChars (n : Nat) : List Char := natCharsAux n n

/-- Decimal rendering of an integer. -/
def intChars (n : Int) : List Char :=
  if n < 0 then '-' :: natChars n.natAbs else natChars n.toNat

/-- JSON string escaping of one character: quote and backslash get a
backslash escape, control characters a `\u00XX` escape. -/
def escChar (c : Char) : List Char :=
  if c = '"' then ['\\', '"']
  else if c = '\\' then ['\\', '\\']
  else if c.toNat < 32 then
    ['\\', 'u', '0', '0', hexDigitChar (c.toNat / 16), hexDigitChar (c.toNat % 16)]
  else [c]

/-- JSON string escaping of a character sequence. -/
def escStr : List Char → List Char
  | [] => []
  | c :: cs => escChar c ++ escStr cs

mutual

/-- Characters of the 4-space pretty printing of a document at indent `ind`. -/
def printVal (ind : Nat) : JVal → List Char
  | .jnull => ['n', 'u', 'l', 'l']
  | .jbool true => ['t', 'r', 'u', 'e']
  | .jbool false => ['f', 'a', 'l', 's', 'e']
  | .jnum n => intChars n
  | .jstr s => '"' :: (escStr s.data ++ ['"'])
  | .jarr .nil => ['[', ']']
  | .jarr (.cons v tl) =>
      '[' :: '\n' :: (printArrItems (ind + 4) (.cons v tl) ++ '\n' :: (pad ind ++ [']']))
  | .jobj .nil => ['\x7b', '\x7d']
  | .jobj (.cons k v tl) =>
      '\x7b' :: '\n' :: (printObjItems (ind + 4) (.cons k v tl) ++ '\n' :: (pad ind ++ ['\x7d']))
  termination_by structural v => v

/-- One array item per line, comma separated, each at indent `ind`. -/
def printArrItems (ind : Nat) : JArr → List Char
  | .nil => []
  | .cons v .nil => pad ind ++ printVal ind v
  | .cons v (.cons w tl) =>
      pad ind ++ (printVal ind v ++ ',' :: '\n' :: printArrItems ind (.cons w tl))
  termination_by structural xs => xs

/-- One object field per line, `"key": value`, comma separated. -/
def printObjItems (ind : Nat) : JObj → List Char
  | .nil => []
  | .cons k v .nil =>
      pad ind ++ ('"' :: (escStr k.data ++ '"' :: ':' :: ' ' :: printVal ind v))
  | .cons k v (.cons k2 w tl) =>
      pad ind ++ ('"' :: (escStr k.data ++ '"' :: ':' :: ' ' ::
        (printVal ind v ++ ',' :: '\n' :: printObjItems ind (.cons k2 w tl))))
  termination_by structural xs => xs

end

/-- `JSON.stringify(v, null, 4)`, modelled from the spec: UTF-8 JSON text
with 4-space indentation. -/
def stringify4 (v : JVal) : String := ⟨printVal 0 v⟩

/-! ## Parser: `JSON.parse` modelled from the spec. -/

/-- JSON insignificant whitespace. -/
def isWsChar (c : Char) : Bool := c = ' ' || c = '\n' || c = '\t' || c = '\r'

/-- Drop leading whitespace. -/
def skipWs : List Char → List Char
  | [] => []
  | c :: cs => if isWsChar c then skipWs cs else c :: cs

/-- Value of a hexadecimal digit character. -/
def hexVal (c : Char) : Option Nat :=
  if c.isDigit then some (c.toNat - 48)
  else if 'a' ≤ c ∧ c ≤ 'f' then some (c.toNat - 87)
  else if 'A' ≤ c ∧ c ≤ 'F' then some (c.toNat - 55)
  else none

/-- The character denoted by a single-letter JSON escape. -/
def escapeOf (e : Char) : Option Char :=
  if e = '"' then some '"'
  else if e = '\\' then some '\\'
  else if e = '/' then some '/'
  else if e = 'n' then some '\n'
  else if e = 't' then some '\t'
  else if e = 'r' then some '\r'
  else if e = 'b' then some '\x08'
  else if e = 'f' then some '\x0c'
  else none

/-- Parse the body of a JSON string after the opening quote; yields the
decoded characters and the remainder after the closing quote.  Fuel-bounded;
any fuel exceeding the length of the encoded body suffices. -/
def parseStrBody : Nat → List Char → Option (List Char × List Char)
  | 0, _ => none
  | _ + 1, [] => none
  | fuel + 1, c :: cs =>
    if c = '"' then some ([], cs)
    else if c = '\\' then
      match cs with
      | [] => none
      | e :: cs2 =>
        if e = 'u' then
          match cs2 with
          | d1 :: d2 :: d3 :: d4 :: cs3 =>
            match hexVal d1, hexVal d2, hexVal d3, hexVal d4 with
            | some a, some b, some x, some y =>
              match parseStrBody fuel cs3 with
              | some (s, rest) =>
                  some (Char.ofNat (a * 4096 + b * 256 + x * 16 + y) :: s, rest)
              | none => none
            | _, _, _, _ => none
          | _ => none
        else
          match escapeOf e with
          | some ch =>
            match parseStrBody fuel cs2 with
            | some (s, rest) => some (ch :: s, rest)
            | none => none
          | none => none
    else
      match parseStrBody fuel cs with
      | some (s, rest) => some (c :: s, rest)
      | none => none

/-- Consume a maximal run of decimal digits, accumulating their value. -/
def parseDigitsAux : List Char → Nat → Nat × List Char
  | [], acc => (acc, [])
  | c :: cs, acc =>
    if c.isDigit then parseDigitsAux cs (acc * 10 + (c.toNat - 48)) else (acc, c :: cs)

/-- Parse an integer JSON number at the head of the input. -/
def parseNumFrom : List Char → Option (Int × List Char)
  | [] => none
  | c :: cs =>
    if c = '-' then
      match cs with
      | [] => none
      | d :: _ =>
        if d.isDigit then
          match parseDigitsAux cs 0 with
          | (m, rest) => some (-(Int.ofNat m), rest)
        else none
    else if c.isDigit then
      match parseDigitsAux (c :: cs) 0 with
      | (m, rest) => some (Int.ofNat m, rest)
    else none

/-- Check that the input starts with the given literal characters and
drop them. -/
def dropLit : List Char → List Char → Option (List Char)
  | [], cs => some cs
  | l :: ls, [] => none
  | l :: ls, c :: cs => if c = l then dropLit ls cs else none

mutual

/-- Fuel-bounded recursive-descent parse of one JSON value; returns the
value and the unconsumed remainder. -/
def parseVal : Nat → List Char → Option (JVal × List Char)
  | 0, _ => none
  | fuel + 1, cs =>
    match skipWs cs with
    | [] => none
    | c :: cs2 =>
      if c = '"' then
        match parseStrBody cs2.length cs2 with
        | some (s, rest) => some (.jstr ⟨s⟩, rest)
        | none => none
      else if c = '[' then
        match parseArrRest fuel cs2 with
        | some (items, rest) => some (.jarr items, rest)
        | none => none
      else if c = '\x7b' then
        match parseObjRest fuel cs2 with
        | some (fields, rest) => some (.jobj fields, rest)
        | none => none
      else if c = 'n' then
        match dropLit ['u', 'l', 'l'] cs2 with
        | some rest => some (.jnull, rest)
        | none => none
      else if c = 't' then
        match dropLit ['r', 'u', 'e'] cs2 with
        | some rest => some (.jbool true, rest)
        | none => none
      else if c = 'f' then
        match dropLit ['a', 'l', 's', 'e'] cs2 with
        | some rest => some (.jbool false, rest)
        | none => none
      else
        match parseNumFrom (c :: cs2) with
        | some (n, rest) => some (.jnum n, rest)
        | none => none
  termination_by structural fuel => fuel

/-- Parse the remainder of an array after the opening bracket. -/
def parseArrRest : Nat → List Char → Option (JArr × List Char)
  | 0, _ => none
  | fuel + 1, cs =>
    match skipWs cs with
    | ']' :: rest => some (.nil, rest)
    | cs2 =>
      match parseVal fuel cs2 with
      | some (v, rest) =>
        match skipWs rest with
        | ',' :: rest2 =>
          match parseArrRest fuel rest2 with
          | some (tl, rest3) => some (.cons v tl, rest3)
          | none => none
        | ']' :: rest2 => some (.cons v .nil, rest2)
        | _ => none
      | none => none
  termination_by structural fuel => fuel

/-- Parse the remainder of an object after the opening brace. -/
def parseObjRest : Nat → List Char → Option (JObj × List Char)
  | 0, _ => none
  | fuel + 1, cs =>
    match skipWs cs with
    | '\x7d' :: rest => some (.nil, rest)
    | '"' :: rest =>
      match parseStrBody rest.length rest with
      | some (k, rest2) =>
        match skipWs rest2 with
        | ':' :: rest3 =>
          match parseVal fuel rest3 with
          | some (v, rest4) =>
            match skipWs rest4 with
            | ',' :: rest5 =>
              match parseObjRest fuel rest5 with
              | some (tl, rest6) => some (.cons ⟨k⟩ v tl, rest6)
              | none => none
            | '\x7d' :: rest5 => some (.cons ⟨k⟩ v .nil, rest5)
            | _ => none
          | none => none
        | _ => none
      | none => none
    | _ => none
  termination_by structural fuel => fuel

end

/-- `JSON.parse`, modelled from the spec: parse a whole JSON text; fails on
trailing garbage or malformed input. -/
def parseJSONText (s : String) : Option JVal :=
  match parseVal (s.length + 1) s.data with
  | some (v, rest) => if skipWs rest = [] then some v else none
  | none => none

/-! ## JavaScript-side notions used by `config.ts` -/

/-- A dynamic JavaScript value for the `isGlobal` / `isState` option fields:
typed `boolean` in the interface, but at runtime possibly absent or of
another type. -/
inductive JsDyn where
  | undefined : JsDyn
  | boolean (b : Bool) : JsDyn
  | nonBoolean (tag : String) : JsDyn
  deriving DecidableEq

/-- lodash `_.isBoolean`. -/
def isBooleanDyn : JsDyn → Bool
  | .boolean _ => true
  | _ => false

/-- The boolean behind a `JsDyn`, when there is one. -/
def dynToBool : JsDyn → Bool
  | .boolean b => b
  | _ => false

/-- JavaScript truthiness of an optional string (absent and `""` are falsy). -/
def truthyOpt : Option String → Bool
  | none => false
  | some s => s != ""

/-- JavaScript truthiness of a JSON value, for `this.contents || \x7b\x7d`:
`null`, `false`, `0` and `""` are falsy, every object and array is truthy. -/
def jsFalsyJVal : JVal → Bool
  | .jnull => true
  | .jbool false => true
  | .jnum 0 => true
  | .jstr "" => true
  | _ => false

/-- lodash `_.isNil` on the optional `write` argument: `undefined` (absent)
and `null` are nil. -/
def isNilOpt : Option JVal → Bool
  | none => true
  | some .jnull => true
  | some _ => false

/-- A JavaScript error as `config.ts` observes it: `SfdxError` carries
`message` and `name`, Node filesystem errors additionally carry `code`. -/
structure JsError where
  message : String
  name : String
  code : Option String
  deriving DecidableEq

/-- Node `ENOENT` error (file or directory absent). -/
def enoentErr : JsError :=
  { message := "ENOENT: no such file or directory", name := "Error", code := some "ENOENT" }

/-- Node `EACCES` error (permission denied). -/
def eaccesErr : JsError :=
  { message := "EACCES: permission denied", name := "Error", code := some "EACCES" }

/-- The error `JSON.parse` raises on malformed input. -/
def jsonSyntaxErr : JsError :=
  { message := "Unexpected token in JSON", name := "SyntaxError", code := none }

/-! ## Filesystem and collaborator model -/

/-- What the filesystem holds at a path: nothing, an unreadable entry
(permission denied), or readable text. -/
inductive Entry where
  | absent : Entry
  | denied : Entry
  | content (text : String) : Entry
  deriving DecidableEq

/-- Filesystem state: file entries and the set of existing directories. -/
structure FS where
  entry : String → Entry
  dirs : String → Bool

/-- The empty filesystem. -/
def emptyFS : FS := { entry := fun _ => .absent, dirs := fun _ => false }

/-- Replace the entry at one path. -/
def FS.setEntry (fs : FS) (p : String) (e : Entry) : FS :=
  { fs with entry := fun q => if q = p then e else fs.entry q }

/-- Environment of the two non-filesystem collaborators: `os.homedir()` and
`ProjectDir.getPath()` (project-root discovery, which may fail). -/
structure Env where
  homedir : String
  projectRoot : Except JsError String

/-- A collaborator invocation, recorded so that claims about the order of
validation versus collaborator calls are statable. -/
inductive CollabCall where
  | homedirCall : CollabCall
  | projectGetPathCall : CollabCall
  deriving DecidableEq

/-- `Global.STATE_FOLDER`: the fixed hidden state-folder name (`.sfdx`,
per the class documentation in `config.ts`). -/
def Global.STATE_FOLDER : String := ".sfdx"

/-- Node `path.join`: empty segments are dropped, the rest are joined
with `/`; an all-empty join yields `.` (normalization of `.`/`..`
segments is out of scope of the embedding). -/
def pathJoin (parts : List String) : String :=
  let ps := parts.filter (fun s => s != "")
  if ps = [] then "." else String.intercalate "/" ps

/-- Binary `path.join`. -/
def pathJoin2 (a b : String) : String := pathJoin [a, b]

/-- Ternary `path.join`. -/
def pathJoin3 (a b c : String) : String := pathJoin [a, b, c]

/-- Split a character list on a separator (kernel-evaluable analogue of
`String.splitOn` for a one-character separator). -/
def splitOnChar (sep : Char) : List Char → List (List Char)
  | [] => [[]]
  | c :: cs =>
    match splitOnChar sep cs with
    | [] => [[]]
    | hd :: tl => if c = sep then [] :: hd :: tl else (c :: hd) :: tl

/-- The `/`-separated components of a path. -/
def splitSlash (p : String) : List String :=
  (splitOnChar '/' p.data).map (fun l => (⟨l⟩ : String))

/-- Node `path.dirname`: everything before the last `/`; `.` when there is
no slash, `/` for a file directly under the root. -/
def pathDirname (p : String) : String :=
  let parts := splitSlash p
  if parts.length ≤ 1 then "."
  else
    let d := String.intercalate "/" parts.dropLast
    if d = "" then "/" else d

/-- All the ancestor directories `mkdirp` guarantees, outermost first,
including the directory itself. -/
def chainAux : String → List String → List String
  | _, [] => []
  | pre, part :: rest =>
    let cur := if pre = "" then part else pre ++ "/" ++ part
    cur :: chainAux cur rest

/-- The parent-directory chain of a directory path. -/
def dirChain (p : String) : List String := chainAux "" (splitSlash p)

/-- `SfdxUtil.access` (modelled from the spec: fails on denial or absence,
succeeds otherwise; the permission bits carry no further structure in the
model). -/
def SfdxUtil.access (fs : FS) (p : String) (_perm : Nat) : Except JsError Unit :=
  match fs.entry p with
  | .content _ => .ok ()
  | .absent => .error enoentErr
  | .denied => .error eaccesErr

/-- `SfdxUtil.readFile` (modelled from the spec: returns the bytes, fails
with `ENOENT` when absent). -/
def SfdxUtil.readFile (fs : FS) (p : String) : Except JsError String :=
  match fs.entry p with
  | .content text => .ok text
  | .absent => .error enoentErr
  | .denied => .error eaccesErr

/-- `SfdxUtil.readJSON` (modelled from the spec: read the file, then
`JSON.parse` the text; a parse failure raises a non-`ENOENT` error). -/
def SfdxUtil.readJSON (fs : FS) (p : String) : Except JsError JVal :=
  match SfdxUtil.readFile fs p with
  | .error e => .error e
  | .ok text =>
    match parseJSONText text with
    | some v => .ok v
    | none => .error jsonSyntaxErr

/-- `SfdxUtil.writeFile` (modelled from the spec: full-file overwrite of the
entry at the path). -/
def SfdxUtil.writeFile (fs : FS) (p : String) (text : String) : FS :=
  fs.setEntry p (.content text)

/-- `SfdxUtil.mkdirp` (modelled from the spec: idempotent recursive
directory creation of the whole parent chain). -/
def SfdxUtil.mkdirp (fs : FS) (p : String) : FS :=
  { fs with dirs := fun q => if q ∈ dirChain p then true else fs.dirs q }

/-- File metadata for `stat`. -/
structure Stats where
  size : Nat
  deriving DecidableEq

/-- `SfdxUtil.stat` (modelled from the spec: metadata on success,
propagates the underlying error otherwise). -/
def SfdxUtil.stat (fs : FS) (p : String) : Except JsError Stats :=
  match fs.entry p with
  | .content text => .ok { size := text.length }
  | .absent => .error enoentErr
  | .denied => .error eaccesErr

/-- `SfdxUtil.unlink` (modelled from the spec: removes the entry). -/
def SfdxUtil.unlink (fs : FS) (p : String) : FS := fs.setEntry p .absent

/-- `fs.constants.R_OK`. -/
def fsConstantsROK : Nat := 4

/-! ## The Config entity (`config.ts`) -/

/-- `ConfigOptions`: immutable creation parameters.  `isGlobal` and
`isState` are dynamic because `Config.create` explicitly guards them with
`_.isBoolean`. -/
structure ConfigOptions where
  rootFolder : Option String := none
  filename : Option String := none
  isGlobal : JsDyn := .undefined
  isState : JsDyn := .undefined
  filePath : Option String := none
  deriving DecidableEq

/-- The `Config` instance state: `options` (set once), `path` (computed
once by `create`), `contents` (absent until a read or write populates it). -/
structure Config where
  options : ConfigOptions
  path : String
  contents : Option JVal
  deriving DecidableEq

/-- `Config.resolveRootFolder`: requires a boolean `isGlobal` (otherwise an
`InvalidTypeForIsGlobal` `SfdxError`), then the home directory for global
and the discovered project root for local.  Also yields the collaborator
calls it performed. -/
def Config.resolveRootFolder (env : Env) (isGlobal : JsDyn) :
    Except JsError String × List CollabCall :=
  if isBooleanDyn isGlobal = false then
    (.error { message := "isGlobal must be a boolean", name := "InvalidTypeForIsGlobal",
              code := none }, [])
  else if dynToBool isGlobal then (.ok env.homedir, [.homedirCall])
  else (env.projectRoot, [.projectGetPathCall])

/-- `Config.create`: validate `filename`, compute the effective boolean
`isGlobal`/`isState`, resolve the root folder (caller-supplied `rootFolder`
wins; otherwise `resolveRootFolder` is called with the raw
`options.isGlobal`), nest under `Global.STATE_FOLDER` when effectively
global or state, and store the joined path once.  Also yields the
collaborator calls performed. -/
def Config.create (env : Env) (options : ConfigOptions) :
    Except JsError Config × List CollabCall :=
  if truthyOpt options.filename = false then
    (.error { message := "The ConfigOptions filename parameter is invalid.",
              name := "InvalidParameter", code := none }, [])
  else
    let isGlobalEff : Bool := isBooleanDyn options.isGlobal && dynToBool options.isGlobal
    let isStateEff : Bool := isBooleanDyn options.isState && dynToBool options.isState
    let resolved :=
      if truthyOpt options.rootFolder then ((.ok (options.rootFolder.getD "") :
        Except JsError String), ([] : List CollabCall))
      else Config.resolveRootFolder env options.isGlobal
    match resolved with
    | (.error e, tr) => (.error e, tr)
    | (.ok root0, tr) =>
      let configRootFolder :=
        if isGlobalEff || isStateEff then pathJoin2 root0 Global.STATE_FOLDER else root0
      ((.ok { options := options,
              path := pathJoin3 configRootFolder
                (if truthyOpt options.filePath then options.filePath.getD "" else "")
                (options.filename.getD ""),
              contents := none }), tr)

/-- `getPath()`. -/
def Config.getPath (c : Config) : String := c.path

/-- `getContents()`: `this.contents || \x7b\x7d` — the empty object when
`contents` is still unset or holds a JavaScript-falsy value. -/
def Config.getContents (c : Config) : JVal :=
  match c.contents with
  | some v => if jsFalsyJVal v then .jobj .nil else v
  | none => .jobj .nil

/-- `setContents(value)`. -/
def Config.setContents (c : Config) (value : JVal) : Config :=
  { c with contents := some value }

/-- `getIsGlobal()`: returns `options.isGlobal` unmodified. -/
def Config.getIsGlobal (c : Config) : JsDyn := c.options.isGlobal

/-- `access(perm)`: true when the underlying check succeeds, false on any
failure; never throws (it is total into `Bool`). -/
def Config.access (c : Config) (fs : FS) (perm : Nat) : Bool :=
  match SfdxUtil.access fs c.getPath perm with
  | .ok _ => true
  | .error _ => false

/-- `read(throwOnNotFound = false)`: parse the file and store the result as
`contents`; an `ENOENT` miss with the flag unset yields `\x7b\x7d` instead;
every other error propagates.  Returns the value together with the updated
instance. -/
def Config.read (c : Config) (fs : FS) (throwOnNotFound : Bool := false) :
    Except JsError (JVal × Config) :=
  match SfdxUtil.readJSON fs c.getPath with
  | .ok v => .ok (v, c.setContents v)
  | .error err =>
    if err.code = some "ENOENT" then
      if throwOnNotFound = false then .ok (.jobj .nil, c.setContents (.jobj .nil))
      else .error err
    else .error err

/-- `readJSON(throwOnNotFound = true)`: alias of `read` with the default
inverted. -/
def Config.readJSON (c : Config) (fs : FS) (throwOnNotFound : Bool := true) :
    Except JsError (JVal × Config) :=
  c.read fs throwOnNotFound

/-- `write(newContents?)`: a non-nil argument replaces `contents` first;
the parent-directory chain is created, then the serialization of
`getContents()` overwrites the file.  Returns the written contents, the
updated instance and the updated filesystem. -/
def Config.write (c : Config) (fs : FS) (newContents : Option JVal) :
    JVal × Config × FS :=
  let c1 := if isNilOpt newContents = false then c.setContents (newContents.getD .jnull) else c
  let fs1 := SfdxUtil.mkdirp fs (pathDirname c1.getPath)
  let fs2 := SfdxUtil.writeFile fs1 c1.getPath (stringify4 c1.getContents)
  (c1.getContents, c1, fs2)

/-- `exists()`: `access` with read permission. -/
def Config.existsFile (c : Config) (fs : FS) : Bool :=
  c.access fs fsConstantsROK

/-- `stat()`: metadata of the file; propagates errors. -/
def Config.stat (c : Config) (fs : FS) : Except JsError Stats :=
  SfdxUtil.stat fs c.getPath

/-- `unlink()`: delete when `exists()` holds, otherwise a
`TargetFileNotFound` `SfdxError` naming the path. -/
def Config.unlink (c : Config) (fs : FS) : Except JsError FS :=
  if c.existsFile fs then .ok (SfdxUtil.unlink fs c.getPath)
  else .error { message := "Target file doesn\x27t exist. path: " ++ c.getPath,
                name := "TargetFileNotFound", code := none }

/-! ## Spec-side definitions for the path-construction claim -/

/-- Modelled from the spec: the effective `isGlobal` of section 4.2 —
`false` whenever the option is not a boolean. -/
def specEffGlobal (options : ConfigOptions) : Bool :=
  match options.isGlobal with
  | .boolean b => b
  | _ => false

/-- Modelled from the spec: the effective `isState` of section 4.2. -/
def specEffState (options : ConfigOptions) : Bool :=
  match options.isState with
  | .boolean b => b
  | _ => false

/-- Modelled from the spec: the base root of section 4.2 — the
caller-supplied `rootFolder` when given, otherwise the home directory for
`isGlobal` true and the discovered project root otherwise. -/
def specBaseRoot (env : Env) (options : ConfigOptions) : Option String :=
  if truthyOpt options.rootFolder then options.rootFolder
  else
    match options.isGlobal with
    | .boolean true => some env.homedir
    | _ => env.projectRoot.toOption

/-! ## Small helpers for stating and proving the claims -/

/-- Accumulate the decimal value of a digit list onto `acc`. -/
def foldDigits (acc : Nat) (l : List Char) : Nat :=
  l.foldl (fun a c => a * 10 + (c.toNat - 48)) acc

/-- True when the input does not start with a decimal digit (so a greedy
number parse stops exactly here). -/
def noDigitHead : List Char → Bool
  | [] => true
  | c :: _ => !c.isDigit

/-- The value a successful `read` returned, if any. -/
def readValue (r : Except JsError (JVal × Config)) : Option JVal :=
  match r with
  | .ok (v, _) => some v
  | .error _ => none

/-- Concrete environment for witnesses. -/
def envW : Env := { homedir := "home", projectRoot := .ok "proj" }

/-- Concrete local options for witnesses: explicit root folder. -/
def optsLocalW : ConfigOptions := { rootFolder := some "root", filename := some "config.json" }

/-- The config `Config.create envW optsLocalW` produces. -/
def cW : Config := { options := optsLocalW, path := "root/config.json", contents := none }

/-- Concrete global options for witnesses. -/
def optsGlobalW : ConfigOptions := { filename := some "f", isGlobal := .boolean true }

/-- The config `Config.create envW optsGlobalW` produces. -/
def cGlobalW : Config := { options := optsGlobalW, path := "home/.sfdx/f", contents := none }

/-- Options whose `isGlobal` is a non-boolean runtime value, no root folder. -/
def optsNonBoolW : ConfigOptions := { filename := some "f", isGlobal := .nonBoolean "yes" }

/-- Options whose `isGlobal` and `isState` are non-boolean, with a root folder. -/
def optsNonBoolRootW : ConfigOptions :=
  { rootFolder := some "r", filename := some "f", isGlobal := .nonBoolean "yes",
    isState := .nonBoolean "no" }

/-- Options without a filename. -/
def optsNoNameW : ConfigOptions := { isGlobal := .boolean true }

/-- A filesystem holding readable JSON text at the witness path. -/
def fsContentW : FS := emptyFS.setEntry "root/config.json" (.content "\x7b\x7d")

/-- A filesystem with a permission-denied entry at the witness path. -/
def fsDeniedW : FS := emptyFS.setEntry "root/config.json" .denied

/-- A filesystem with malformed JSON at the witness path. -/
def fsBadJsonW : FS := emptyFS.setEntry "root/config.json" (.content "\x7b\"a\":")

/-! # Theorems

First the serializer/parser round trip, then the claims about `Config`. -/

/-! ## Whitespace and character facts -/

theorem skipWs_not_ws {c : Char} (cs : List Char) (h : isWsChar c = false) :
    skipWs (c :: cs) = c :: cs := by
  simp [skipWs, h]

theorem skipWs_append_ws : ∀ (l cs : List Char), (∀ c ∈ l, isWsChar c = true) →
    skipWs (l ++ cs) = skipWs cs
  | [], _, _ => rfl
  | c :: l, cs, h => by
    have hc : isWsChar c = true := h c (by simp)
    have ih := skipWs_append_ws l cs (fun x hx => h x (by simp [hx]))
    simp [skipWs, hc, ih]

theorem pad_ws (n : Nat) : ∀ c ∈ pad n, isWsChar c = true := by
  intro c hc
  have : c = ' ' := by simpa [pad] using (List.eq_of_mem_replicate hc)
  simp [this, isWsChar]

theorem isDigit_ne {c x : Char} (h : c.isDigit = true) (hx : x.isDigit = false) : c ≠ x := by
  intro he
  subst he
  simp [h] at hx

theorem isDigit_not_ws {c : Char} (h : c.isDigit = true) : isWsChar c = false := by
  have h1 : c ≠ ' ' := isDigit_ne h (by decide)
  have h2 : c ≠ '\n' := isDigit_ne h (by decide)
  have h3 : c ≠ '\t' := isDigit_ne h (by decide)
  have h4 : c ≠ '\r' := isDigit_ne h (by decide)
  simp [isWsChar, h1, h2, h3, h4]

theorem digitChar_isDigit (d : Nat) : (digitChar d).isDigit = true := by
  rcases d with _|_|_|_|_|_|_|_|_|d <;> rfl

theorem toNat_digitChar : ∀ d : Nat, d < 10 → (digitChar d).toNat = 48 + d := by
  intro d h
  rcases d with _|_|_|_|_|_|_|_|_|_|d <;> first | rfl | omega

/-! ## Digit parsing -/

theorem parseDigitsAux_append : ∀ (l rest : List Char) (acc : Nat),
    (∀ c ∈ l, c.isDigit = true) →
    parseDigitsAux (l ++ rest) acc = parseDigitsAux rest (foldDigits acc l)
  | [], rest, acc, _ => by simp [foldDigits]
  | c :: l, rest, acc, h => by
    have hc : c.isDigit = true := h c (by simp)
    have ih := parseDigitsAux_append l rest (acc * 10 + (c.toNat - 48))
      (fun x hx => h x (by simp [hx]))
    simp [parseDigitsAux, hc, foldDigits] at ih ⊢
    exact ih

theorem parseDigitsAux_stop (rest : List Char) (acc : Nat) (h : noDigitHead rest = true) :
    parseDigitsAux rest acc = (acc, rest) := by
  cases rest with
  | nil => rfl
  | cons c cs =>
    simp [noDigitHead] at h
    simp [parseDigitsAux, h]

theorem natCharsAux_digits : ∀ (fuel n : Nat), ∀ c ∈ natCharsAux fuel n, c.isDigit = true := by
  intro fuel
  induction fuel with
  | zero =>
    intro n c hc
    simp [natCharsAux] at hc
    simp [hc, digitChar_isDigit]
  | succ fuel ih =>
    intro n c hc
    by_cases h : n < 10
    · simp [natCharsAux, h] at hc
      simp [hc, digitChar_isDigit]
    · simp [natCharsAux, h] at hc
      rcases hc with hc | hc
      · exact ih _ c hc
      · simp [hc, digitChar_isDigit]

theorem natCharsAux_ne_nil (fuel n : Nat) : natCharsAux fuel n ≠ [] := by
  cases fuel with
  | zero => simp [natCharsAux]
  | succ fuel =>
    by_cases h : n < 10 <;> simp [natCharsAux, h]

theorem foldDigits_singleton (acc : Nat) (c : Char) :
    foldDigits acc [c] = acc * 10 + (c.toNat - 48) := rfl

theorem foldDigits_append (acc : Nat) (l1 l2 : List Char) :
    foldDigits acc (l1 ++ l2) = foldDigits (foldDigits acc l1) l2 := by
  simp [foldDigits, List.foldl_append]

theorem foldDigits_natCharsAux : ∀ (fuel n acc : Nat), n ≤ fuel →
    foldDigits acc (natCharsAux fuel n) = acc * 10 ^ (natCharsAux fuel n).length + n := by
  intro fuel
  induction fuel with
  | zero =>
    intro n acc h
    have hn : n = 0 := by omega
    subst hn
    show foldDigits acc [digitChar 0] = acc * 10 ^ ([digitChar 0] : List Char).length + 0
    rw [foldDigits_singleton, toNat_digitChar 0 (by omega)]
    simp [pow_one]
  | succ fuel ih =>
    intro n acc h
    by_cases h10 : n < 10
    · show foldDigits acc (if n < 10 then [digitChar n] else _)
        = acc * 10 ^ (if n < 10 then [digitChar n] else _ : List Char).length + n
      rw [if_pos h10, foldDigits_singleton, toNat_digitChar n h10]
      simp [pow_one]
    · have hdiv : n / 10 ≤ fuel := by omega
      have ihd := ih (n / 10) acc hdiv
      have hmod : (digitChar (n % 10)).toNat = 48 + n % 10 :=
        toNat_digitChar (n % 10) (Nat.mod_lt n (by omega))
      show foldDigits acc (if n < 10 then _ else natCharsAux fuel (n / 10) ++ [digitChar (n % 10)])
        = acc * 10 ^ (if n < 10 then _ else
            natCharsAux fuel (n / 10) ++ [digitChar (n % 10)] : List Char).length + n
      rw [if_neg h10, foldDigits_append, foldDigits_singleton, ihd, hmod,
        List.length_append]
      have hdm : 10 * (n / 10) + n % 10 = n := Nat.div_add_mod n 10
      have h48 : 48 + n % 10 - 48 = n % 10 := by omega
      calc (acc * 10 ^ (natCharsAux fuel (n / 10)).length + n / 10) * 10 + (48 + n % 10 - 48)
          = acc * (10 ^ (natCharsAux fuel (n / 10)).length * 10) + (10 * (n / 10) + n % 10) := by
            rw [h48]; ring
        _ = acc * 10 ^ ((natCharsAux fuel (n / 10)).length + [digitChar (n % 10)].length) + n := by
            rw [hdm]
            have : ((natCharsAux fuel (n / 10)).length + [digitChar (n % 10)].length)
              = (natCharsAux fuel (n / 10)).length + 1 := by simp
            rw [this, pow_succ]

theorem parseDigitsAux_natChars (n : Nat) (rest : List Char) (acc : Nat)
    (h : noDigitHead rest = true) :
    parseDigitsAux (natChars n ++ rest) acc =
      (acc * 10 ^ (natChars n).length + n, rest) := by
  rw [show natChars n = natCharsAux n n from rfl,
    parseDigitsAux_append (natCharsAux n n) rest acc (natCharsAux_digits n n),
    parseDigitsAux_stop rest _ h, foldDigits_natCharsAux n n acc (Nat.le_refl n)]

/-! ## Integer round trip -/

theorem natChars_head_digit (m : Nat) (c0 : Char) (tl : List Char)
    (hshape : natChars m = c0 :: tl) : c0.isDigit = true := by
  have := natCharsAux_digits m m c0
  rw [show natCharsAux m m = natChars m from rfl, hshape] at this
  exact this (by simp)

theorem parseNumFrom_intChars (n : Int) (rest : List Char) (h : noDigitHead rest = true) :
    parseNumFrom (intChars n ++ rest) = some (n, rest) := by
  by_cases hn : n < 0
  · obtain ⟨c0, tl, hshape⟩ : ∃ c0 tl, natChars n.natAbs = c0 :: tl :=
      List.exists_cons_of_ne_nil (natCharsAux_ne_nil _ _)
    have hc0 : c0.isDigit = true := natChars_head_digit _ _ _ hshape
    have hparse := parseDigitsAux_natChars n.natAbs rest 0 h
    rw [hshape] at hparse
    simp only [List.cons_append, Nat.zero_mul, Nat.zero_add] at hparse
    rw [show intChars n ++ rest = '-' :: (c0 :: (tl ++ rest)) by
      simp [intChars, hn, hshape]]
    simp only [parseNumFrom, hc0, if_true, if_pos rfl, hparse]
    have : -(Int.ofNat n.natAbs) = n := by
      rw [Int.ofNat_eq_coe]
      omega
    simp only [this]
  · obtain ⟨c0, tl, hshape⟩ : ∃ c0 tl, natChars n.toNat = c0 :: tl :=
      List.exists_cons_of_ne_nil (natCharsAux_ne_nil _ _)
    have hc0 : c0.isDigit = true := natChars_head_digit _ _ _ hshape
    have hminus : c0 ≠ '-' := isDigit_ne hc0 (by decide)
    have hparse := parseDigitsAux_natChars n.toNat rest 0 h
    rw [hshape] at hparse
    simp only [List.cons_append, Nat.zero_mul, Nat.zero_add] at hparse
    rw [show intChars n ++ rest = c0 :: (tl ++ rest) by
      simp [intChars, hn, hshape]]
    simp only [parseNumFrom, hminus, if_false, hc0, if_true, hparse]
    have : Int.ofNat n.toNat = n := by
      rw [Int.ofNat_eq_coe]
      omega
    simp only [this]

/-! ## String escaping round trip -/

theorem hexVal_hexDigitChar : ∀ k : Nat, k < 16 → hexVal (hexDigitChar k) = some k := by
  intro k h
  interval_cases k <;> decide

theorem escStr_cons (c : Char) (l : List Char) : escStr (c :: l) = escChar c ++ escStr l := rfl

theorem parseStrBody_escape : ∀ (l : List Char) (fuel : Nat) (rest : List Char),
    (escStr l).length < fuel →
    parseStrBody fuel (escStr l ++ '"' :: rest) = some (l, rest) := by
  intro l
  induction l with
  | nil =>
    intro fuel rest h
    cases fuel with
    | zero => omega
    | succ f => simp [escStr, parseStrBody]
  | cons c l ih =>
    intro fuel rest h
    by_cases h1 : c = '"'
    · subst h1
      rw [escStr_cons] at h ⊢
      rw [show escChar '"' = ['\\', '"'] from rfl] at h ⊢
      simp only [List.length_append, List.length_cons, List.length_nil] at h
      cases fuel with
      | zero => omega
      | succ f =>
        have hfl : (escStr l).length < f := by omega
        have ihf := ih f rest hfl
        simp [parseStrBody, escapeOf, ihf]
    · by_cases h2 : c = '\\'
      · subst h2
        rw [escStr_cons] at h ⊢
        rw [show escChar '\\' = ['\\', '\\'] from rfl] at h ⊢
        simp only [List.length_append, List.length_cons, List.length_nil] at h
        cases fuel with
        | zero => omega
        | succ f =>
          have hfl : (escStr l).length < f := by omega
          have ihf := ih f rest hfl
          simp [parseStrBody, escapeOf, ihf]
      · by_cases h3 : c.toNat < 32
        · rw [escStr_cons] at h ⊢
          rw [show escChar c
              = ['\\', 'u', '0', '0', hexDigitChar (c.toNat / 16), hexDigitChar (c.toNat % 16)]
            by simp [escChar, h1, h2, h3]] at h ⊢
          simp only [List.length_append, List.length_cons, List.length_nil] at h
          cases fuel with
          | zero => omega
          | succ f =>
            have hfl : (escStr l).length < f := by omega
            have ihf := ih f rest hfl
            have hdivv : hexVal (hexDigitChar (c.toNat / 16)) = some (c.toNat / 16) :=
              hexVal_hexDigitChar _ (by omega)
            have hmodv : hexVal (hexDigitChar (c.toNat % 16)) = some (c.toNat % 16) :=
              hexVal_hexDigitChar _ (Nat.mod_lt _ (by omega))
            have hchar : Char.ofNat (c.toNat / 16 * 16 + c.toNat % 16) = c := by
              have hdm : c.toNat / 16 * 16 + c.toNat % 16 = c.toNat := by omega
              rw [hdm, Char.ofNat_toNat]
            have hzero : hexVal '0' = some 0 := by decide
            simp [parseStrBody, hzero, hdivv, hmodv, ihf, hchar]
        · rw [escStr_cons] at h ⊢
          rw [show escChar c = [c] by simp [escChar, h1, h2, h3]] at h ⊢
          simp only [List.length_append, List.length_cons, List.length_nil] at h
          cases fuel with
          | zero => omega
          | succ f =>
            have hfl : (escStr l).length < f := by omega
            have ihf := ih f rest hfl
            simp [parseStrBody, h1, h2, ihf]

/-! ## Shape facts about the printer -/

theorem sizeVal_pos (v : JVal) : 1 ≤ sizeVal v := by
  cases v <;> simp [sizeVal]

theorem sizeArr_pos : ∀ xs : JArr, 1 ≤ sizeArr xs
  | .nil => by simp [sizeArr]
  | .cons v tl => by
    have h1 := sizeVal_pos v
    have h2 := sizeArr_pos tl
    simp [sizeArr]
    omega
  termination_by structural xs => xs

theorem sizeObj_pos : ∀ xs : JObj, 1 ≤ sizeObj xs
  | .nil => by simp [sizeObj]
  | .cons k v tl => by
    have h1 := sizeVal_pos v
    have h2 := sizeObj_pos tl
    simp [sizeObj]
    omega
  termination_by structural xs => xs

theorem printVal_shape (ind : Nat) (v : JVal) :
    ∃ c tl, printVal ind v = c :: tl ∧ isWsChar c = false ∧ c ≠ ']' := by
  cases v with
  | jnull => exact ⟨'n', _, rfl, by decide, by decide⟩
  | jbool b => cases b with
    | true => exact ⟨'t', _, rfl, by decide, by decide⟩
    | false => exact ⟨'f', _, rfl, by decide, by decide⟩
  | jnum n =>
    by_cases hn : n < 0
    · exact ⟨'-', natChars n.natAbs, by simp [printVal, intChars, hn], by decide, by decide⟩
    · obtain ⟨c0, tl0, hs⟩ : ∃ c0 tl0, natChars n.toNat = c0 :: tl0 :=
        List.exists_cons_of_ne_nil (natCharsAux_ne_nil _ _)
      have hd : c0.isDigit = true := natChars_head_digit _ _ _ hs
      exact ⟨c0, tl0, by simp [printVal, intChars, hn, hs], isDigit_not_ws hd,
        isDigit_ne hd (by decide)⟩
  | jstr s => exact ⟨'"', _, rfl, by decide, by decide⟩
  | jarr xs => cases xs with
    | nil => exact ⟨'[', _, rfl, by decide, by decide⟩
    | cons v tl => exact ⟨'[', _, rfl, by decide, by decide⟩
  | jobj xs => cases xs with
    | nil => exact ⟨'\x7b', _, rfl, by decide, by decide⟩
    | cons k v tl => exact ⟨'\x7b', _, rfl, by decide, by decide⟩

theorem skipWs_print_append (ind : Nat) (v : JVal) (rest : List Char) :
    skipWs (printVal ind v ++ rest) = printVal ind v ++ rest := by
  obtain ⟨c, tl, hshape, hws, _⟩ := printVal_shape ind v
  rw [hshape, List.cons_append, skipWs_not_ws _ hws]

theorem skipWs_w_print (ind : Nat) (v : JVal) (w rest : List Char)
    (hw : ∀ c ∈ w, isWsChar c = true) :
    skipWs (w ++ (printVal ind v ++ rest)) = printVal ind v ++ rest := by
  rw [skipWs_append_ws w _ hw, skipWs_print_append]

theorem skipWs_ws_lead (w rest : List Char) (hw : ∀ c ∈ w, isWsChar c = true)
    (c : Char) (hc : isWsChar c = false) : skipWs (w ++ c :: rest) = c :: rest := by
  rw [skipWs_append_ws w _ hw, skipWs_not_ws _ hc]

theorem ws_nl_pad (w : List Char) (hw : ∀ c ∈ w, isWsChar c = true) (ind : Nat) :
    ∀ c ∈ w ++ '\n' :: pad ind, isWsChar c = true := by
  intro c hc
  simp at hc
  rcases hc with hc | hc | hc
  · exact hw c hc
  · simp [hc, isWsChar]
  · exact pad_ws ind c hc

/-! ## The printed size bounds the parser fuel -/

mutual

theorem sizeVal_le_printVal : ∀ (v : JVal) (ind : Nat), sizeVal v ≤ (printVal ind v).length
  | .jnull, ind => by simp [sizeVal, printVal]
  | .jbool true, ind => by simp [sizeVal, printVal]
  | .jbool false, ind => by simp [sizeVal, printVal]
  | .jnum n, ind => by
    have : printVal ind (.jnum n) ≠ [] := by
      obtain ⟨c, tl, hshape, _, _⟩ := printVal_shape ind (.jnum n)
      simp [hshape]
    have : 1 ≤ (printVal ind (.jnum n)).length := by
      cases hp : printVal ind (.jnum n) with
      | nil => exact absurd hp this
      | cons c tl => simp
    simpa [sizeVal] using this
  | .jstr s, ind => by simp [sizeVal, printVal]
  | .jarr .nil, ind => by simp [sizeVal, sizeArr, printVal]
  | .jarr (.cons v tl), ind => by
    have h := sizeArr_le_printArrItems (.cons v tl) (ind + 4)
    simp only [sizeVal, printVal, List.length_cons, List.length_append, pad,
      List.length_replicate] at h ⊢
    omega
  | .jobj .nil, ind => by simp [sizeVal, sizeObj, printVal]
  | .jobj (.cons k v tl), ind => by
    have h := sizeObj_le_printObjItems (.cons k v tl) (ind + 4)
    simp only [sizeVal, printVal, List.length_cons, List.length_append, pad,
      List.length_replicate] at h ⊢
    omega
  termination_by structural v => v

theorem sizeArr_le_printArrItems : ∀ (xs : JArr) (ind : Nat),
    sizeArr xs ≤ (printArrItems ind xs).length + 1
  | .nil, ind => by simp [sizeArr, printArrItems]
  | .cons v .nil, ind => by
    have h := sizeVal_le_printVal v ind
    simp only [sizeArr, printArrItems, List.length_append, pad, List.length_replicate]
    simp [sizeArr]
    omega
  | .cons v (.cons w tl), ind => by
    have h1 := sizeVal_le_printVal v ind
    have h2 := sizeArr_le_printArrItems (.cons w tl) ind
    simp only [sizeArr, printArrItems, List.length_append, List.length_cons, pad,
      List.length_replicate] at h2 ⊢
    omega
  termination_by structural xs => xs

theorem sizeObj_le_printObjItems : ∀ (xs : JObj) (ind : Nat),
    sizeObj xs ≤ (printObjItems ind xs).length + 1
  | .nil, ind => by simp [sizeObj, printObjItems]
  | .cons k v .nil, ind => by
    have h := sizeVal_le_printVal v ind
    simp only [sizeObj, printObjItems, List.length_append, List.length_cons, pad,
      List.length_replicate]
    simp [sizeObj]
    omega
  | .cons k v (.cons k2 w tl), ind => by
    have h1 := sizeVal_le_printVal v ind
    have h2 := sizeObj_le_printObjItems (.cons k2 w tl) ind
    simp only [sizeObj, printObjItems, List.length_append, List.length_cons, pad,
      List.length_replicate] at h2 ⊢
    omega
  termination_by structural xs => xs

end

/-! ## The print/parse round trip -/

mutual

theorem parseVal_print : ∀ (v : JVal) (fuel ind : Nat) (w rest : List Char),
    sizeVal v ≤ fuel → (∀ c ∈ w, isWsChar c = true) → noDigitHead rest = true →
    parseVal fuel (w ++ (printVal ind v ++ rest)) = some (v, rest)
  | .jnull, fuel, ind, w, rest => by
    intro hfuel hw hrest
    cases fuel with
    | zero => simp [sizeVal] at hfuel
    | succ f =>
      have hskip := skipWs_w_print ind .jnull w rest hw
      simp only [printVal] at hskip ⊢
      simp only [List.cons_append, List.nil_append] at hskip ⊢
      simp [parseVal, hskip, dropLit]
  | .jbool true, fuel, ind, w, rest => by
    intro hfuel hw hrest
    cases fuel with
    | zero => simp [sizeVal] at hfuel
    | succ f =>
      have hskip := skipWs_w_print ind (.jbool true) w rest hw
      simp only [printVal] at hskip ⊢
      simp only [List.cons_append, List.nil_append] at hskip ⊢
      simp [parseVal, hskip, dropLit]
  | .jbool false, fuel, ind, w, rest => by
    intro hfuel hw hrest
    cases fuel with
    | zero => simp [sizeVal] at hfuel
    | succ f =>
      have hskip := skipWs_w_print ind (.jbool false) w rest hw
      simp only [printVal] at hskip ⊢
      simp only [List.cons_append, List.nil_append] at hskip ⊢
      simp [parseVal, hskip, dropLit]
  | .jnum n, fuel, ind, w, rest => by
    intro hfuel hw hrest
    cases fuel with
    | zero => simp [sizeVal] at hfuel
    | succ f =>
      obtain ⟨c, tl, hshape, hcc⟩ :
          ∃ c tl, intChars n = c :: tl ∧ (c = '-' ∨ c.isDigit = true) := by
        by_cases hn : n < 0
        · exact ⟨'-', natChars n.natAbs, by simp [intChars, hn], Or.inl rfl⟩
        · obtain ⟨c0, tl0, hs⟩ : ∃ c0 tl0, natChars n.toNat = c0 :: tl0 :=
            List.exists_cons_of_ne_nil (natCharsAux_ne_nil _ _)
          exact ⟨c0, tl0, by simp [intChars, hn, hs], Or.inr (natChars_head_digit _ _ _ hs)⟩
      have hne : ∀ x : Char, x.isDigit = false → x ≠ '-' → ¬(c = x) := by
        intro x hx hxm
        rcases hcc with h | h
        · subst h; exact fun he => hxm he.symm
        · exact isDigit_ne h hx
      have h1 := hne '"' (by decide) (by decide)
      have h2 := hne '[' (by decide) (by decide)
      have h3 := hne '\x7b' (by decide) (by decide)
      have h4 := hne 'n' (by decide) (by decide)
      have h5 := hne 't' (by decide) (by decide)
      have h6 := hne 'f' (by decide) (by decide)
      have hnum : parseNumFrom (c :: (tl ++ rest)) = some (n, rest) := by
        rw [show c :: (tl ++ rest) = intChars n ++ rest by simp [hshape]]
        exact parseNumFrom_intChars n rest hrest
      have hskip := skipWs_w_print ind (.jnum n) w rest hw
      simp only [printVal, hshape] at hskip ⊢
      simp only [List.cons_append, List.nil_append] at hskip ⊢
      simp [parseVal, hskip, h1, h2, h3, h4, h5, h6, hnum]
  | .jstr s, fuel, ind, w, rest => by
    intro hfuel hw hrest
    cases fuel with
    | zero => simp [sizeVal] at hfuel
    | succ f =>
      have hskip := skipWs_w_print ind (.jstr s) w rest hw
      have hbody := parseStrBody_escape s.data (escStr s.data ++ ('"' :: rest)).length rest
        (by simp)
      simp only [List.length_append, List.length_cons] at hbody
      simp only [printVal] at hskip ⊢
      simp only [List.cons_append, List.append_assoc, List.nil_append,
        List.singleton_append] at hskip ⊢
      simp [parseVal, hskip, hbody]
  | .jarr .nil, fuel, ind, w, rest => by
    intro hfuel hw hrest
    cases fuel with
    | zero => simp [sizeVal] at hfuel
    | succ f =>
      have hf : 1 ≤ f := by
        simp [sizeVal, sizeArr] at hfuel
        omega
      cases f with
      | zero => omega
      | succ f2 =>
        have hskip := skipWs_w_print ind (.jarr .nil) w rest hw
        simp only [printVal] at hskip ⊢
        simp only [List.cons_append, List.nil_append] at hskip ⊢
        have hrs : skipWs (']' :: rest) = ']' :: rest := skipWs_not_ws rest (by decide)
        simp [parseVal, hskip, parseArrRest, hrs]
  | .jarr (.cons v tl), fuel, ind, w, rest => by
    intro hfuel hw hrest
    cases fuel with
    | zero =>
      have := sizeArr_pos (.cons v tl)
      simp [sizeVal] at hfuel
    | succ f =>
      have hfa : sizeArr (.cons v tl) ≤ f := by
        simp only [sizeVal] at hfuel
        omega
      have harr := parseArrRest_print (.cons v tl) f (ind + 4) ind ['\n'] rest hfa
        (by intro c hc; simp at hc; simp [hc, isWsChar]) hrest
      have hskip := skipWs_w_print ind (.jarr (.cons v tl)) w rest hw
      simp only [printVal] at hskip ⊢
      simp only [List.cons_append, List.append_assoc, List.nil_append,
        List.singleton_append] at harr hskip ⊢
      simp [parseVal, hskip, harr]
  | .jobj .nil, fuel, ind, w, rest => by
    intro hfuel hw hrest
    cases fuel with
    | zero => simp [sizeVal] at hfuel
    | succ f =>
      have hf : 1 ≤ f := by
        simp [sizeVal, sizeObj] at hfuel
        omega
      cases f with
      | zero => omega
      | succ f2 =>
        have hskip := skipWs_w_print ind (.jobj .nil) w rest hw
        simp only [printVal] at hskip ⊢
        simp only [List.cons_append, List.nil_append] at hskip ⊢
        have hrs : skipWs ('\x7d' :: rest) = '\x7d' :: rest := skipWs_not_ws rest (by decide)
        simp [parseVal, hskip, parseObjRest, hrs]
  | .jobj (.cons k v tl), fuel, ind, w, rest => by
    intro hfuel hw hrest
    cases fuel with
    | zero =>
      have := sizeObj_pos (.cons k v tl)
      simp [sizeVal] at hfuel
    | succ f =>
      have hfo : sizeObj (.cons k v tl) ≤ f := by
        simp only [sizeVal] at hfuel
        omega
      have hobj := parseObjRest_print (.cons k v tl) f (ind + 4) ind ['\n'] rest hfo
        (by intro c hc; simp at hc; simp [hc, isWsChar]) hrest
      have hskip := skipWs_w_print ind (.jobj (.cons k v tl)) w rest hw
      simp only [printVal] at hskip ⊢
      simp only [List.cons_append, List.append_assoc, List.nil_append,
        List.singleton_append] at hobj hskip ⊢
      simp [parseVal, hskip, hobj]
  termination_by structural v => v

theorem parseArrRest_print : ∀ (xs : JArr) (fuel indI indC : Nat) (w rest : List Char),
    sizeArr xs ≤ fuel → (∀ c ∈ w, isWsChar c = true) → noDigitHead rest = true →
    parseArrRest fuel (w ++ (printArrItems indI xs ++ '\n' :: (pad indC ++ ']' :: rest)))
      = some (xs, rest)
  | .nil, fuel, indI, indC, w, rest => by
    intro hfuel hw hrest
    cases fuel with
    | zero => simp [sizeArr] at hfuel
    | succ f =>
      have hskip : skipWs (w ++ (printArrItems indI .nil ++ '\n' :: (pad indC ++ ']' :: rest)))
          = ']' :: rest := by
        simp only [printArrItems, List.nil_append]
        rw [show w ++ '\n' :: (pad indC ++ ']' :: rest)
          = (w ++ '\n' :: pad indC) ++ (']' :: rest) by simp]
        exact skipWs_ws_lead _ _ (ws_nl_pad w hw indC) ']' (by decide)
      simp [parseArrRest, hskip]
  | .cons v tl, fuel, indI, indC, w, rest => by
    intro hfuel hw hrest
    cases fuel with
    | zero =>
      have h1 := sizeVal_pos v
      have h2 := sizeArr_pos tl
      simp [sizeArr] at hfuel
      omega
    | succ f =>
      have hfv : sizeVal v ≤ f := by
        have := sizeArr_pos tl
        simp [sizeArr] at hfuel
        omega
      obtain ⟨c, ctl, hcshape, hcws, hcne⟩ := printVal_shape indI v
      have hwpad : ∀ c2 ∈ w ++ pad indI, isWsChar c2 = true := by
        intro c2 hc2
        simp at hc2
        rcases hc2 with h | h
        · exact hw _ h
        · exact pad_ws _ _ h
      cases tl with
      | nil =>
        have hskip : skipWs (w ++ (printArrItems indI (.cons v .nil)
              ++ '\n' :: (pad indC ++ ']' :: rest)))
            = printVal indI v ++ ('\n' :: (pad indC ++ ']' :: rest)) := by
          simp only [printArrItems]
          rw [show w ++ ((pad indI ++ printVal indI v) ++ '\n' :: (pad indC ++ ']' :: rest))
            = (w ++ pad indI) ++ (printVal indI v ++ ('\n' :: (pad indC ++ ']' :: rest)))
            by simp]
          exact skipWs_w_print indI v _ _ hwpad
        have hval := parseVal_print v f indI [] ('\n' :: (pad indC ++ ']' :: rest)) hfv
          (by simp) (by rfl)
        simp only [List.nil_append] at hval
        have hskip2 : skipWs ('\n' :: (pad indC ++ ']' :: rest)) = ']' :: rest := by
          rw [show ('\n' :: (pad indC ++ ']' :: rest)) = ('\n' :: pad indC) ++ (']' :: rest)
            by simp]
          refine skipWs_ws_lead _ _ ?_ ']' (by decide)
          intro c2 hc2
          simp at hc2
          rcases hc2 with h | h
          · simp [h, isWsChar]
          · exact pad_ws _ _ h
        simp only [parseArrRest]
        rw [hskip, hcshape, List.cons_append]
        split
        · rename_i heq
          rw [List.cons_eq_cons] at heq
          exact absurd heq.1 hcne
        · rename_i cs2 heq
          rw [← List.cons_append, ← hcshape, hval]
          simp [hskip2]
      | cons v2 tl2 =>
        have hft : sizeArr (.cons v2 tl2) ≤ f := by
          have := sizeVal_pos v
          simp [sizeArr] at hfuel ⊢
          omega
        have hskip : skipWs (w ++ (printArrItems indI (.cons v (.cons v2 tl2))
              ++ '\n' :: (pad indC ++ ']' :: rest)))
            = printVal indI v ++ (',' :: '\n' :: (printArrItems indI (.cons v2 tl2)
              ++ '\n' :: (pad indC ++ ']' :: rest))) := by
          simp only [printArrItems]
          rw [show w ++ ((pad indI ++ (printVal indI v ++ ',' :: '\n' ::
                printArrItems indI (.cons v2 tl2))) ++ '\n' :: (pad indC ++ ']' :: rest))
            = (w ++ pad indI) ++ (printVal indI v ++ (',' :: '\n' ::
                (printArrItems indI (.cons v2 tl2) ++ '\n' :: (pad indC ++ ']' :: rest))))
            by simp]
          exact skipWs_w_print indI v _ _ hwpad
        have hval := parseVal_print v f indI [] (',' :: '\n' :: (printArrItems indI
          (.cons v2 tl2) ++ '\n' :: (pad indC ++ ']' :: rest))) hfv (by simp) (by rfl)
        simp only [List.nil_append] at hval
        have htl := parseArrRest_print (.cons v2 tl2) f indI indC ['\n'] rest hft
          (by intro c2 hc2; simp at hc2; simp [hc2, isWsChar]) hrest
        simp only [List.singleton_append] at htl
        have hskip3 : skipWs (',' :: '\n' :: (printArrItems indI (.cons v2 tl2)
              ++ '\n' :: (pad indC ++ ']' :: rest)))
            = ',' :: '\n' :: (printArrItems indI (.cons v2 tl2)
              ++ '\n' :: (pad indC ++ ']' :: rest)) :=
          skipWs_not_ws _ (by decide)
        simp only [parseArrRest]
        rw [hskip, hcshape, List.cons_append]
        split
        · rename_i heq
          rw [List.cons_eq_cons] at heq
          exact absurd heq.1 hcne
        · rename_i cs2 heq
          rw [← List.cons_append, ← hcshape, hval]
          simp [hskip3, htl]
  termination_by structural xs => xs

theorem parseObjRest_print : ∀ (xs : JObj) (fuel indI indC : Nat) (w rest : List Char),
    sizeObj xs ≤ fuel → (∀ c ∈ w, isWsChar c = true) → noDigitHead rest = true →
    parseObjRest fuel (w ++ (printObjItems indI xs ++ '\n' :: (pad indC ++ '\x7d' :: rest)))
      = some (xs, rest)
  | .nil, fuel, indI, indC, w, rest => by
    intro hfuel hw hrest
    cases fuel with
    | zero => simp [sizeObj] at hfuel
    | succ f =>
      have hskip : skipWs (w ++ (printObjItems indI .nil
            ++ '\n' :: (pad indC ++ '\x7d' :: rest)))
          = '\x7d' :: rest := by
        simp only [printObjItems, List.nil_append]
        rw [show w ++ '\n' :: (pad indC ++ '\x7d' :: rest)
          = (w ++ '\n' :: pad indC) ++ ('\x7d' :: rest) by simp]
        exact skipWs_ws_lead _ _ (ws_nl_pad w hw indC) '\x7d' (by decide)
      simp [parseObjRest, hskip]
  | .cons k v tl, fuel, indI, indC, w, rest => by
    intro hfuel hw hrest
    cases fuel with
    | zero =>
      have h1 := sizeVal_pos v
      have h2 := sizeObj_pos tl
      simp [sizeObj] at hfuel
      omega
    | succ f =>
      have hfv : sizeVal v ≤ f := by
        have := sizeObj_pos tl
        simp [sizeObj] at hfuel
        omega
      have hwpad : ∀ c2 ∈ w ++ pad indI, isWsChar c2 = true := by
        intro c2 hc2
        simp at hc2
        rcases hc2 with h | h
        · exact hw _ h
        · exact pad_ws _ _ h
      cases tl with
      | nil =>
        have hskip : skipWs (w ++ (printObjItems indI (.cons k v .nil)
              ++ '\n' :: (pad indC ++ '\x7d' :: rest)))
            = '"' :: (escStr k.data ++ ('"' :: ':' :: ' ' :: (printVal indI v
              ++ '\n' :: (pad indC ++ '\x7d' :: rest)))) := by
          simp only [printObjItems]
          rw [show w ++ ((pad indI ++ ('"' :: (escStr k.data ++ '"' :: ':' :: ' ' ::
                printVal indI v))) ++ '\n' :: (pad indC ++ '\x7d' :: rest))
            = (w ++ pad indI) ++ ('"' :: (escStr k.data ++ ('"' :: ':' :: ' ' ::
                (printVal indI v ++ '\n' :: (pad indC ++ '\x7d' :: rest))))) by simp]
          rw [skipWs_ws_lead _ _ hwpad '"' (by decide)]
        have hbody := parseStrBody_escape k.data
          (escStr k.data ++ ('"' :: ':' :: ' ' :: (printVal indI v
            ++ '\n' :: (pad indC ++ '\x7d' :: rest)))).length
          (':' :: ' ' :: (printVal indI v ++ '\n' :: (pad indC ++ '\x7d' :: rest)))
          (by simp)
        have hval := parseVal_print v f indI [' ']
          ('\n' :: (pad indC ++ '\x7d' :: rest)) hfv (by decide) (by rfl)
        simp only [List.singleton_append] at hval
        have hskip2 : skipWs ('\n' :: (pad indC ++ '\x7d' :: rest)) = '\x7d' :: rest := by
          rw [show ('\n' :: (pad indC ++ '\x7d' :: rest))
            = ('\n' :: pad indC) ++ ('\x7d' :: rest) by simp]
          refine skipWs_ws_lead _ _ ?_ '\x7d' (by decide)
          intro c2 hc2
          simp at hc2
          rcases hc2 with h | h
          · simp [h, isWsChar]
          · exact pad_ws _ _ h
        have hcolon : skipWs (':' :: ' ' :: (printVal indI v
              ++ '\n' :: (pad indC ++ '\x7d' :: rest)))
            = ':' :: ' ' :: (printVal indI v ++ '\n' :: (pad indC ++ '\x7d' :: rest)) :=
          skipWs_not_ws _ (by decide)
        simp only [parseObjRest]
        rw [hskip]
        simp only [List.cons_append] at hbody ⊢
        simp only [List.length_append, List.length_cons] at hbody
        simp [hbody, hcolon, hval, hskip2]
      | cons k2 v2 tl2 =>
        have hft : sizeObj (.cons k2 v2 tl2) ≤ f := by
          have := sizeVal_pos v
          simp [sizeObj] at hfuel ⊢
          omega
        have hskip : skipWs (w ++ (printObjItems indI (.cons k v (.cons k2 v2 tl2))
              ++ '\n' :: (pad indC ++ '\x7d' :: rest)))
            = '"' :: (escStr k.data ++ ('"' :: ':' :: ' ' :: (printVal indI v
              ++ ',' :: '\n' :: (printObjItems indI (.cons k2 v2 tl2)
                ++ '\n' :: (pad indC ++ '\x7d' :: rest))))) := by
          simp only [printObjItems]
          rw [show w ++ ((pad indI ++ ('"' :: (escStr k.data ++ '"' :: ':' :: ' ' ::
                (printVal indI v ++ ',' :: '\n' :: printObjItems indI (.cons k2 v2 tl2)))))
                ++ '\n' :: (pad indC ++ '\x7d' :: rest))
            = (w ++ pad indI) ++ ('"' :: (escStr k.data ++ ('"' :: ':' :: ' ' ::
                (printVal indI v ++ ',' :: '\n' :: (printObjItems indI (.cons k2 v2 tl2)
                  ++ '\n' :: (pad indC ++ '\x7d' :: rest)))))) by simp]
          rw [skipWs_ws_lead _ _ hwpad '"' (by decide)]
        have hbody := parseStrBody_escape k.data
          (escStr k.data ++ ('"' :: ':' :: ' ' :: (printVal indI v
            ++ ',' :: '\n' :: (printObjItems indI (.cons k2 v2 tl2)
              ++ '\n' :: (pad indC ++ '\x7d' :: rest))))).length
          (':' :: ' ' :: (printVal indI v ++ ',' :: '\n' :: (printObjItems indI
            (.cons k2 v2 tl2) ++ '\n' :: (pad indC ++ '\x7d' :: rest))))
          (by simp)
        have hval := parseVal_print v f indI [' ']
          (',' :: '\n' :: (printObjItems indI (.cons k2 v2 tl2)
            ++ '\n' :: (pad indC ++ '\x7d' :: rest))) hfv (by decide) (by rfl)
        simp only [List.singleton_append] at hval
        have htl := parseObjRest_print (.cons k2 v2 tl2) f indI indC ['\n'] rest hft
          (by intro c2 hc2; simp at hc2; simp [hc2, isWsChar]) hrest
        simp only [List.singleton_append] at htl
        have hcomma : skipWs (',' :: '\n' :: (printObjItems indI (.cons k2 v2 tl2)
              ++ '\n' :: (pad indC ++ '\x7d' :: rest)))
            = ',' :: '\n' :: (printObjItems indI (.cons k2 v2 tl2)
              ++ '\n' :: (pad indC ++ '\x7d' :: rest)) :=
          skipWs_not_ws _ (by decide)
        have hcolon : skipWs (':' :: ' ' :: (printVal indI v
              ++ ',' :: '\n' :: (printObjItems indI (.cons k2 v2 tl2)
                ++ '\n' :: (pad indC ++ '\x7d' :: rest))))
            = ':' :: ' ' :: (printVal indI v ++ ',' :: '\n' :: (printObjItems indI
              (.cons k2 v2 tl2) ++ '\n' :: (pad indC ++ '\x7d' :: rest))) :=
          skipWs_not_ws _ (by decide)
        simp only [parseObjRest]
        rw [hskip]
        simp only [List.cons_append] at hbody ⊢
        simp only [List.length_append, List.length_cons] at hbody
        simp [hbody, hcolon, hval, hcomma, htl]
  termination_by structural xs => xs

end

/-- The round-trip law of the serializer/parser pair: parsing the 4-space
pretty printing of any document recovers the document exactly. -/
theorem parseJSONText_stringify4 (v : JVal) : parseJSONText (stringify4 v) = some v := by
  have hlen : sizeVal v ≤ (printVal 0 v).length + 1 := by
    have := sizeVal_le_printVal v 0
    omega
  have h := parseVal_print v ((printVal 0 v).length + 1) 0 [] [] hlen (by simp) (by decide)
  simp only [List.nil_append, List.append_nil] at h
  simp [parseJSONText, stringify4, String.length, h, skipWs]

/-! ## Facts about `Config.create` -/

theorem effGlobal_eq (o : ConfigOptions) :
    (isBooleanDyn o.isGlobal && dynToBool o.isGlobal) = specEffGlobal o := by
  cases h : o.isGlobal <;> simp [isBooleanDyn, dynToBool, specEffGlobal, h]

theorem effState_eq (o : ConfigOptions) :
    (isBooleanDyn o.isState && dynToBool o.isState) = specEffState o := by
  cases h : o.isState <;> simp [isBooleanDyn, dynToBool, specEffState, h]

/-- Case analysis of a successful `Config.create`: the stored fields, the
validated filename, the origin of the root folder, and the stored path. -/
theorem create_ok_cases (env : Env) (opts : ConfigOptions) (c : Config)
    (tr : List CollabCall) (hok : Config.create env opts = (.ok c, tr)) :
    c.options = opts ∧ c.contents = none ∧ truthyOpt opts.filename = true ∧
    ∃ root0,
      ((truthyOpt opts.rootFolder = true ∧ root0 = opts.rootFolder.getD "" ∧ tr = []) ∨
       (truthyOpt opts.rootFolder = false ∧ opts.isGlobal = .boolean true
         ∧ root0 = env.homedir ∧ tr = [.homedirCall]) ∨
       (truthyOpt opts.rootFolder = false ∧ opts.isGlobal = .boolean false
         ∧ env.projectRoot = .ok root0 ∧ tr = [.projectGetPathCall])) ∧
      c.path = pathJoin3
        (if (isBooleanDyn opts.isGlobal && dynToBool opts.isGlobal)
            || (isBooleanDyn opts.isState && dynToBool opts.isState)
         then pathJoin2 root0 Global.STATE_FOLDER else root0)
        (if truthyOpt opts.filePath then opts.filePath.getD "" else "")
        (opts.filename.getD "") := by
  by_cases hfn : truthyOpt opts.filename = false
  · simp [Config.create, hfn] at hok
  · simp only [Bool.not_eq_false] at hfn
    by_cases hrf : truthyOpt opts.rootFolder = true
    · simp only [Config.create, hfn, Bool.true_eq_false, Bool.false_eq_true, if_false, if_true,
        hrf, Prod.mk.injEq, Except.ok.injEq] at hok
      obtain ⟨hc, htr⟩ := hok
      refine ⟨by rw [← hc], by rw [← hc], hfn, opts.rootFolder.getD "",
        Or.inl ⟨hrf, rfl, htr.symm⟩, by rw [← hc]⟩
    · simp only [Bool.not_eq_true] at hrf
      cases hg : opts.isGlobal with
      | undefined =>
        simp [Config.create, hfn, hrf, Config.resolveRootFolder, hg, isBooleanDyn] at hok
      | nonBoolean tag =>
        simp [Config.create, hfn, hrf, Config.resolveRootFolder, hg, isBooleanDyn] at hok
      | boolean b =>
        cases b with
        | true =>
          simp only [Config.create, hfn, Bool.true_eq_false, Bool.false_eq_true, if_false,
            if_true, hrf, Config.resolveRootFolder, hg, isBooleanDyn, dynToBool,
            Prod.mk.injEq, Except.ok.injEq] at hok
          obtain ⟨hc, htr⟩ := hok
          refine ⟨by rw [← hc], by rw [← hc], hfn, env.homedir,
            Or.inr (Or.inl ⟨hrf, rfl, rfl, htr.symm⟩), ?_⟩
          rw [← hc]
          simp [isBooleanDyn, dynToBool]
        | false =>
          cases hpr : env.projectRoot with
          | error e =>
            simp [Config.create, hfn, hrf, Config.resolveRootFolder, hg, isBooleanDyn,
              dynToBool, hpr] at hok
          | ok r =>
            simp only [Config.create, hfn, Bool.true_eq_false, Bool.false_eq_true, if_false,
              if_true, hrf, Config.resolveRootFolder, hg, isBooleanDyn, dynToBool, hpr,
              Prod.mk.injEq, Except.ok.injEq] at hok
            obtain ⟨hc, htr⟩ := hok
            refine ⟨by rw [← hc], by rw [← hc], hfn, r,
              Or.inr (Or.inr ⟨hrf, rfl, rfl, htr.symm⟩), ?_⟩
            rw [← hc]
            simp [isBooleanDyn, dynToBool]

/-! ## Claims about path construction and creation -/

/-- C2: For every ConfigOptions accepted by `Config.create`, the path stored on
the instance equals join(base, filePath-or-empty, filename), where base is the
caller-supplied rootFolder when given, otherwise the resolved root (home
directory when isGlobal is true, discovered project root otherwise), with the
fixed STATE_FOLDER segment appended to the base exactly when the effective
isGlobal or isState is true. -/
theorem C2_path_construction (env : Env) (opts : ConfigOptions) (c : Config)
    (tr : List CollabCall) (hok : Config.create env opts = (.ok c, tr)) :
    ∃ base, specBaseRoot env opts = some base ∧
      c.path = pathJoin3
        (if specEffGlobal opts || specEffState opts then pathJoin2 base Global.STATE_FOLDER
         else base)
        (if truthyOpt opts.filePath then opts.filePath.getD "" else "")
        (opts.filename.getD "") := by
  obtain ⟨hopts, hcont, hfn, root0, hcases, hpath⟩ := create_ok_cases env opts c tr hok
  rw [effGlobal_eq, effState_eq] at hpath
  refine ⟨root0, ?_, hpath⟩
  rcases hcases with ⟨hrf, hr0, -⟩ | ⟨hrf, hg, hr0, -⟩ | ⟨hrf, hg, hpr, -⟩
  · cases hrfv : opts.rootFolder with
    | none => rw [hrfv] at hrf; simp [truthyOpt] at hrf
    | some s =>
      rw [hrfv] at hr0 hrf
      simp [specBaseRoot, hrf, hrfv, hr0]
  · subst hr0
    simp [specBaseRoot, hrf, hg]
  · simp [specBaseRoot, hrf, hg, hpr, Except.toOption]

theorem C2_path_construction_witness :
    ∃ base, specBaseRoot envW optsGlobalW = some base ∧
      cGlobalW.path = pathJoin3
        (if specEffGlobal optsGlobalW || specEffState optsGlobalW
         then pathJoin2 base Global.STATE_FOLDER else base)
        (if truthyOpt optsGlobalW.filePath then optsGlobalW.filePath.getD "" else "")
        (optsGlobalW.filename.getD "") :=
  C2_path_construction envW optsGlobalW cGlobalW [.homedirCall] (by rfl)

/-- C3 counterexample: with filename present, a non-boolean `isGlobal` and no
`rootFolder`, `Config.create` does fail with an InvalidTypeForIsGlobal error
(the raw `options.isGlobal` is passed to `resolveRootFolder`), contradicting
the claim that creation does not fail with an InvalidType error and resolves
the path against the project root. -/
theorem C3_nonboolean_cex :
    ∃ e tr, Config.create envW optsNonBoolW = (.error e, tr)
      ∧ e.name = "InvalidTypeForIsGlobal" :=
  ⟨_, _, rfl, rfl⟩

/-- C3 (amended): with filename present and non-boolean `isGlobal`/`isState`,
the effective flags are false so the state folder is never appended; when
`rootFolder` is present creation succeeds (no InvalidType error) with path
join(rootFolder, filePath-or-empty, filename); but when `rootFolder` is
absent, creation fails with InvalidTypeForIsGlobal because the raw
`isGlobal` reaches `resolveRootFolder`. -/
theorem C3_nonboolean_flags (env : Env) (opts : ConfigOptions)
    (hfn : truthyOpt opts.filename = true)
    (hg : isBooleanDyn opts.isGlobal = false)
    (hs : isBooleanDyn opts.isState = false) :
    (truthyOpt opts.rootFolder = true →
      Config.create env opts =
        (.ok { options := opts,
               path := pathJoin3 (opts.rootFolder.getD "")
                 (if truthyOpt opts.filePath then opts.filePath.getD "" else "")
                 (opts.filename.getD ""),
               contents := none }, []))
    ∧ (truthyOpt opts.rootFolder = false →
      Config.create env opts =
        (.error { message := "isGlobal must be a boolean",
                  name := "InvalidTypeForIsGlobal", code := none }, [])) := by
  constructor
  · intro hrf
    simp [Config.create, hfn, hrf, hg, hs]
  · intro hrf
    simp [Config.create, hfn, hrf, Config.resolveRootFolder, hg]

theorem C3_nonboolean_flags_witness :
    Config.create envW optsNonBoolRootW =
      (.ok { options := optsNonBoolRootW,
             path := pathJoin3 (optsNonBoolRootW.rootFolder.getD "")
               (if truthyOpt optsNonBoolRootW.filePath
                then optsNonBoolRootW.filePath.getD "" else "")
               (optsNonBoolRootW.filename.getD ""),
             contents := none }, [])
    ∧ Config.create envW optsNonBoolW =
      (.error { message := "isGlobal must be a boolean",
                name := "InvalidTypeForIsGlobal", code := none }, []) :=
  ⟨(C3_nonboolean_flags envW optsNonBoolRootW rfl rfl rfl).1 rfl,
   (C3_nonboolean_flags envW optsNonBoolW rfl rfl rfl).2 rfl⟩

/-- C5: for every ConfigOptions whose filename is missing (or empty, hence
JavaScript-falsy), `Config.create` fails with the InvalidParameter SfdxError,
and the collaborator-call trace is empty: no filesystem or project-root
access precedes the check, whatever the environment. -/
theorem C5_missing_filename (env : Env) (opts : ConfigOptions)
    (h : truthyOpt opts.filename = false) :
    Config.create env opts =
      (.error { message := "The ConfigOptions filename parameter is invalid.",
                name := "InvalidParameter", code := none }, []) := by
  simp [Config.create, h]

theorem C5_missing_filename_witness :
    truthyOpt optsNoNameW.filename = false ∧
    Config.create envW optsNoNameW =
      (.error { message := "The ConfigOptions filename parameter is invalid.",
                name := "InvalidParameter", code := none }, []) :=
  ⟨rfl, C5_missing_filename envW optsNoNameW rfl⟩

/-- C10: `getIsGlobal()` returns `options.isGlobal` unmodified, so on a Config
created without an isGlobal option it returns the undefined dynamic value and
never a boolean, even though path resolution treated effective globality as
false. -/
theorem C10_getIsGlobal_unmodified (env : Env) (opts : ConfigOptions) (c : Config)
    (tr : List CollabCall) (hok : Config.create env opts = (.ok c, tr)) :
    Config.getIsGlobal c = opts.isGlobal
    ∧ (opts.isGlobal = .undefined →
        Config.getIsGlobal c = .undefined
        ∧ ∀ b : Bool, Config.getIsGlobal c ≠ .boolean b) := by
  obtain ⟨hopts, -, -, -⟩ := create_ok_cases env opts c tr hok
  constructor
  · simp [Config.getIsGlobal, hopts]
  · intro hu
    constructor
    · simp [Config.getIsGlobal, hopts, hu]
    · intro b
      simp [Config.getIsGlobal, hopts, hu]

theorem C10_getIsGlobal_unmodified_witness :
    Config.getIsGlobal cW = optsLocalW.isGlobal
    ∧ (Config.getIsGlobal cW = .undefined
        ∧ ∀ b : Bool, Config.getIsGlobal cW ≠ .boolean b) :=
  ⟨(C10_getIsGlobal_unmodified envW optsLocalW cW [] (by rfl)).1,
   (C10_getIsGlobal_unmodified envW optsLocalW cW [] (by rfl)).2 rfl⟩

/-! ## Claims about read, access, unlink, write and the frame -/

/-- C4: read error handling: a missing file with throwOnNotFound=false stores
and returns the empty mapping without error; with the flag set the ENOENT
error propagates; every error other than ENOENT (permission denied, malformed
JSON, other faults of the collaborator) propagates regardless of the flag;
and readJSON is the alias of read with the default inverted to true. -/
theorem C4_read_error_handling (c : Config) (fs : FS) :
    (fs.entry c.getPath = .absent →
      Config.read c fs false = .ok (.jobj .nil, c.setContents (.jobj .nil)))
    ∧ (fs.entry c.getPath = .absent → Config.read c fs true = .error enoentErr)
    ∧ (∀ (flag : Bool) (e : JsError), SfdxUtil.readJSON fs c.getPath = .error e →
        e.code ≠ some "ENOENT" → Config.read c fs flag = .error e)
    ∧ (fs.entry c.getPath = .denied → ∀ flag : Bool, Config.read c fs flag = .error eaccesErr)
    ∧ Config.readJSON c fs = Config.read c fs true := by
  refine ⟨?_, ?_, ?_, ?_, rfl⟩
  · intro h
    simp [Config.read, SfdxUtil.readJSON, SfdxUtil.readFile, h, enoentErr]
  · intro h
    simp [Config.read, SfdxUtil.readJSON, SfdxUtil.readFile, h, enoentErr]
  · intro flag e he hne
    simp [Config.read, he, hne]
  · intro h flag
    have he : SfdxUtil.readJSON fs c.getPath = .error eaccesErr := by
      simp [SfdxUtil.readJSON, SfdxUtil.readFile, h]
    simp [Config.read, he, eaccesErr]

theorem C4_read_error_handling_witness :
    Config.read cW emptyFS false = .ok (.jobj .nil, cW.setContents (.jobj .nil))
    ∧ Config.read cW emptyFS true = .error enoentErr
    ∧ Config.read cW fsDeniedW true = .error eaccesErr :=
  ⟨(C4_read_error_handling cW emptyFS).1 rfl,
   (C4_read_error_handling cW emptyFS).2.1 rfl,
   (C4_read_error_handling cW fsDeniedW).2.2.2.1 rfl true⟩

/-- C8: access never throws: it is total into Bool, true exactly when the
underlying filesystem access check succeeds, and false both for a missing
file and for a permission-denied file, with no distinction between the two. -/
theorem C8_access_flattens (c : Config) (fs : FS) (perm : Nat) :
    (Config.access c fs perm = true ↔ SfdxUtil.access fs c.getPath perm = .ok ())
    ∧ (fs.entry c.getPath = .absent → Config.access c fs perm = false)
    ∧ (fs.entry c.getPath = .denied → Config.access c fs perm = false) := by
  refine ⟨?_, ?_, ?_⟩
  · cases hE : fs.entry c.getPath <;> simp [Config.access, SfdxUtil.access, hE]
  · intro h
    simp [Config.access, SfdxUtil.access, h]
  · intro h
    simp [Config.access, SfdxUtil.access, h]

theorem C8_access_flattens_witness :
    Config.access cW emptyFS fsConstantsROK = false
    ∧ Config.access cW fsDeniedW fsConstantsROK = false
    ∧ Config.access cW fsContentW fsConstantsROK = true :=
  ⟨(C8_access_flattens cW emptyFS fsConstantsROK).2.1 rfl,
   (C8_access_flattens cW fsDeniedW fsConstantsROK).2.2 rfl,
   (C8_access_flattens cW fsContentW fsConstantsROK).1.mpr rfl⟩

/-- C6 counterexample: at a path whose entry exists but is permission-denied,
exists() is false, so unlink raises TargetFileNotFound although the unlink
target is not absent — refuting the claim that TargetFileNotFound is raised
iff the target is absent. -/
theorem C6_unlink_cex :
    (∃ e, Config.unlink cW fsDeniedW = .error e ∧ e.name = "TargetFileNotFound")
    ∧ fsDeniedW.entry cW.getPath ≠ .absent :=
  ⟨⟨_, rfl, rfl⟩, by decide⟩

/-- C6 (amended): unlink deletes the entry through a single SfdxUtil.unlink
call exactly when exists() is true; when exists() is false it fails with a
TargetFileNotFound error whose message names the resolved path; and
TargetFileNotFound is raised iff exists() is false, i.e. iff the read-access
check fails — which covers a permission-denied existing file as well as an
absent one. -/
theorem C6_unlink_behavior (c : Config) (fs : FS) :
    (Config.existsFile c fs = true →
      Config.unlink c fs = .ok (SfdxUtil.unlink fs c.getPath)
      ∧ (SfdxUtil.unlink fs c.getPath).entry c.getPath = .absent)
    ∧ (Config.existsFile c fs = false →
      Config.unlink c fs =
        .error { message := "Target file doesn\x27t exist. path: " ++ c.getPath,
                 name := "TargetFileNotFound", code := none })
    ∧ ((∃ e, Config.unlink c fs = .error e ∧ e.name = "TargetFileNotFound")
        ↔ Config.existsFile c fs = false) := by
  refine ⟨?_, ?_, ?_, ?_⟩
  · intro hEt
    constructor
    · simp [Config.unlink, hEt]
    · simp [SfdxUtil.unlink, FS.setEntry]
  · intro hEf
    simp [Config.unlink, hEf]
  · rintro ⟨e, he, -⟩
    by_cases hEt : Config.existsFile c fs = true
    · rw [show Config.unlink c fs = .ok (SfdxUtil.unlink fs c.getPath) from by
        simp [Config.unlink, hEt]] at he
      cases he
    · simpa using hEt
  · intro hEf
    exact ⟨{ message := "Target file doesn\x27t exist. path: " ++ c.getPath,
             name := "TargetFileNotFound", code := none },
           by simp [Config.unlink, hEf], rfl⟩

theorem C6_unlink_behavior_witness :
    (Config.unlink cW fsContentW = .ok (SfdxUtil.unlink fsContentW cW.getPath)
      ∧ (SfdxUtil.unlink fsContentW cW.getPath).entry cW.getPath = .absent)
    ∧ Config.unlink cW emptyFS =
        .error { message := "Target file doesn\x27t exist. path: " ++ cW.getPath,
                 name := "TargetFileNotFound", code := none } :=
  ⟨(C6_unlink_behavior cW fsContentW).1 rfl,
   (C6_unlink_behavior cW emptyFS).2.1 rfl⟩

/-- C7: write replaces the in-memory contents first when the argument is not
nil and leaves the instance untouched when it is nil; it ensures the whole
parent-directory chain of the path through the idempotent recursive mkdirp;
it serializes getContents() as JSON with 4-space indentation (sample shown in
the last conjunct) as a full overwrite of exactly the resolved path, leaving
every other path untouched; and it returns the contents that were written. -/
theorem C7_write_behavior (c : Config) (fs : FS) :
    (∀ v : JVal, isNilOpt (some v) = false →
      (Config.write c fs (some v)).2.1.contents = some v)
    ∧ (∀ nc : Option JVal, isNilOpt nc = true → (Config.write c fs nc).2.1 = c)
    ∧ (∀ nc : Option JVal,
        ((Config.write c fs nc).2.2).entry c.getPath
          = .content (stringify4 ((Config.write c fs nc).2.1.getContents)))
    ∧ (∀ (nc : Option JVal) (q : String), q ≠ c.getPath →
        ((Config.write c fs nc).2.2).entry q = fs.entry q)
    ∧ (∀ (nc : Option JVal) (q : String), q ∈ dirChain (pathDirname c.getPath) →
        ((Config.write c fs nc).2.2).dirs q = true)
    ∧ (∀ p : String, SfdxUtil.mkdirp (SfdxUtil.mkdirp fs p) p = SfdxUtil.mkdirp fs p)
    ∧ (∀ nc : Option JVal, (Config.write c fs nc).1 = (Config.write c fs nc).2.1.getContents)
    ∧ stringify4 (.jobj (.cons "a" (.jnum 1) .nil)) = "\x7b\n    \"a\": 1\n\x7d" := by
  refine ⟨?_, ?_, ?_, ?_, ?_, ?_, fun nc => rfl, by decide⟩
  · intro v hv
    simp [Config.write, hv, Config.setContents]
  · intro nc hnc
    simp [Config.write, hnc]
  · intro nc
    by_cases hnc : isNilOpt nc = false <;>
      simp [Config.write, hnc, Config.setContents, Config.getPath,
        SfdxUtil.writeFile, FS.setEntry, SfdxUtil.mkdirp]
  · intro nc q hq
    simp only [Config.getPath] at hq
    by_cases hnc : isNilOpt nc = false <;>
      simp [Config.write, hnc, Config.setContents, Config.getPath,
        SfdxUtil.writeFile, FS.setEntry, SfdxUtil.mkdirp, hq]
  · intro nc q hqmem
    simp only [Config.getPath] at hqmem
    by_cases hnc : isNilOpt nc = false <;>
      simp [Config.write, hnc, Config.setContents, Config.getPath,
        SfdxUtil.writeFile, FS.setEntry, SfdxUtil.mkdirp, hqmem]
  · intro p
    simp only [SfdxUtil.mkdirp]
    congr 1
    funext q
    by_cases hq : q ∈ dirChain p <;> simp [hq]

theorem C7_write_behavior_witness :
    (Config.write cW emptyFS (some (.jnum 2))).2.1.contents = some (.jnum 2)
    ∧ (Config.write cW emptyFS none).2.1 = cW
    ∧ ((Config.write cW emptyFS none).2.2).dirs "root" = true :=
  ⟨(C7_write_behavior cW emptyFS).1 (.jnum 2) rfl,
   (C7_write_behavior cW emptyFS).2.1 none rfl,
   (C7_write_behavior cW emptyFS).2.2.2.2.1 none "root" (by decide)⟩

/-- C9: frame invariant: the path is computed once by create and stored;
read, write and setContents leave both path and options unchanged (access,
exists, stat and unlink assign no instance fields, so the embedding gives
them no Config result at all), and getPath merely projects the stored path —
hence getPath yields the same string across the lifetime of the instance. -/
theorem C9_frame_invariant (c : Config) (fs : FS) (flag : Bool) (v : JVal)
    (nc : Option JVal) (ret : JVal) (c2 : Config) (fs2 : FS) :
    (Config.read c fs flag = .ok (v, c2) → c2.path = c.path ∧ c2.options = c.options)
    ∧ (Config.write c fs nc = (ret, c2, fs2) → c2.path = c.path ∧ c2.options = c.options)
    ∧ ((c.setContents v).path = c.path ∧ (c.setContents v).options = c.options)
    ∧ Config.getPath c = c.path := by
  refine ⟨?_, ?_, ⟨rfl, rfl⟩, rfl⟩
  · intro h
    cases hrj : SfdxUtil.readJSON fs c.getPath with
    | ok v2 =>
      simp only [Config.read, hrj, Except.ok.injEq, Prod.mk.injEq] at h
      obtain ⟨-, hc2⟩ := h
      rw [← hc2]
      exact ⟨rfl, rfl⟩
    | error e =>
      by_cases hcode : e.code = some "ENOENT"
      · cases flag with
        | false =>
          simp only [Config.read, hrj, hcode, if_true, if_pos rfl,
            Except.ok.injEq, Prod.mk.injEq] at h
          obtain ⟨-, hc2⟩ := h
          rw [← hc2]
          exact ⟨rfl, rfl⟩
        | true =>
          simp [Config.read, hrj, hcode] at h
      · simp [Config.read, hrj, hcode] at h
  · intro h
    have hc2 : c2 = (Config.write c fs nc).2.1 := by rw [h]
    by_cases hnc : isNilOpt nc = false <;>
      simp [hc2, Config.write, hnc, Config.setContents]

theorem C9_frame_invariant_witness :
    ((cW.setContents (.jobj .nil)).path = cW.path
      ∧ (cW.setContents (.jobj .nil)).options = cW.options)
    ∧ ((Config.write cW emptyFS (some (.jnum 3))).2.1.path = cW.path
      ∧ (Config.write cW emptyFS (some (.jnum 3))).2.1.options = cW.options) :=
  ⟨(C9_frame_invariant cW emptyFS false (.jobj .nil) none (.jobj .nil)
      (cW.setContents (.jobj .nil)) emptyFS).1 (by rfl),
   (C9_frame_invariant cW emptyFS false (.jobj .nil) (some (.jnum 3))
      (Config.write cW emptyFS (some (.jnum 3))).1
      (Config.write cW emptyFS (some (.jnum 3))).2.1
      (Config.write cW emptyFS (some (.jnum 3))).2.2).2.1 (by rfl)⟩

/-! ## The write/read round trip on Config -/

/-- C1 counterexample: `write(false)` stores `contents = false`, but the file
write serializes `getContents()` — i.e. `contents || empty-object` — so the
empty object is what lands on disk; the subsequent `read()` returns the empty
object, which is not deep-equal to the JSON-representable document `false`.
This refutes the round-trip law as stated for every JSON-representable X. -/
theorem C1_roundtrip_cex :
    readValue (Config.read (Config.write cW emptyFS (some (.jbool false))).2.1
      (Config.write cW emptyFS (some (.jbool false))).2.2 false) = some (.jobj .nil)
    ∧ JVal.jobj .nil ≠ .jbool false := by
  constructor
  · rfl
  · decide

/-- C1 (amended): for every JSON document X that is not JavaScript-falsy
(hence in particular not nil), `write(X)` followed by `read()` on the same
Config returns a value deep-equal to X — write serializes the contents at the
resolved path and read parses them back.  For falsy X (null, false, 0, the
empty string) the code serializes `getContents()` = the empty object instead,
so the law fails there (see the counterexample). -/
theorem C1_write_read_roundtrip (c : Config) (fs : FS) (x : JVal)
    (hx : jsFalsyJVal x = false) :
    Config.read (Config.write c fs (some x)).2.1 (Config.write c fs (some x)).2.2 false
      = .ok (x, (Config.write c fs (some x)).2.1) := by
  have hnil : isNilOpt (some x) = false := by
    cases x <;> simp_all [jsFalsyJVal, isNilOpt]
  simp [Config.read, Config.write, hnil, Config.getPath, Config.setContents,
    SfdxUtil.readJSON, SfdxUtil.readFile, SfdxUtil.writeFile, FS.setEntry,
    SfdxUtil.mkdirp, Config.getContents, hx, parseJSONText_stringify4]

theorem C1_write_read_roundtrip_witness :
    jsFalsyJVal (.jnum 5) = false
    ∧ Config.read (Config.write cW emptyFS (some (.jnum 5))).2.1
        (Config.write cW emptyFS (some (.jnum 5))).2.2 false
      = .ok (.jnum 5, (Config.write cW emptyFS (some (.jnum 5))).2.1) :=
  ⟨rfl, C1_write_read_roundtrip cW emptyFS (.jnum 5) rfl⟩
